import Mathlib

/-
Verification of the decision-and-simulation engine of a single-stock
autotrading system (backtest.py, strategy.py, risk_control.py,
indicators.py).

Modelling conventions:
- Python floats are embedded as exact rationals (ℚ); all arithmetic in the
  verified fragment is exact, so ℚ mirrors the intended real-number
  semantics of the source.
- Python `int(x)` (truncation toward zero) is `pyInt`.
- Pandas NaN values arising from insufficient history are modelled as
  `none : Option ℚ`; comparisons against NaN are false, exactly as in
  pandas/numpy.
- Timestamps are bar indices (ℕ); the simulator appends trades in
  chronological order, so list order of trades equals timestamp order.
- The per-bar trading signal is an explicit input of the per-bar step
  function: in the source it is produced by `_generate_signal` from the
  price history, and the claims under study quantify over all signals.
-/

namespace AutoTrade

/-- Python `int(q)`: truncation of an exact rational toward zero. -/
def pyInt (q : ℚ) : ℤ := if q < 0 then -(⌊-q⌋) else ⌊q⌋

/-- Signal kinds of `strategy.SignalType` (BUY/SELL/HOLD/STRONG_BUY/STRONG_SELL). -/
inductive SignalType
  | buy
  | sell
  | hold
  | strongBuy
  | strongSell
deriving DecidableEq, Repr

/-- Signal triple returned by the analyzers: (type, strength, reason). -/
abbrev Signal := SignalType × ℚ × String

/-! ## Strategy combiner (strategy.py, StrategyManager._combine_strategy_signals) -/

/-- StrategyManager._combine_strategy_signals: merge the technical and the
momentum signal given the combined strength.  Mirrors the source exactly,
including the final expression of the agreement branch, which tests
`tech_signal == SignalType.BUY` only. -/
def combineStrategySignals (tech momentum : SignalType) (strength : ℚ) : SignalType :=
  if tech = momentum ∧ tech ≠ SignalType.hold then
    if strength ≥ 7/10 then
      (if tech = SignalType.buy then SignalType.strongBuy else SignalType.strongSell)
    else
      tech
  else
    if strength ≥ 5/10 then tech
    else SignalType.hold

/-! ## Momentum analyzer (indicators.py momentum / price_change,
strategy.py MomentumStrategy.analyze_momentum) -/

/-- Last entry of `momentum(close, 10) = close - close.shift(10)`
(indicators.py).  `none` models the NaN produced when fewer than 11 bars
exist. -/
def momentumLast (prices : List ℚ) : Option ℚ :=
  if 11 ≤ prices.length then
    some (prices.getD (prices.length - 1) 0 - prices.getD (prices.length - 11) 0)
  else
    none

/-- Last entry of `price_change(close, 1) = close.pct_change()`
(indicators.py): the fractional one-bar return (NOT scaled by 100).
`none` models the NaN produced when fewer than 2 bars exist. -/
def priceChangeLast (prices : List ℚ) : Option ℚ :=
  if 2 ≤ prices.length then
    some ((prices.getD (prices.length - 1) 0 - prices.getD (prices.length - 2) 0)
          / prices.getD (prices.length - 2) 0)
  else
    none

/-- Comparison `v > c` where `v` may be NaN (`none`): false on NaN, as in numpy. -/
def nanGt (o : Option ℚ) (c : ℚ) : Bool :=
  match o with
  | none => false
  | some v => c < v

/-- Comparison `v < c` where `v` may be NaN (`none`): false on NaN, as in numpy. -/
def nanLt (o : Option ℚ) (c : ℚ) : Bool :=
  match o with
  | none => false
  | some v => v < c

/-- Body of MomentumStrategy.analyze_momentum (strategy.py, the code inside
the try block).  On an empty frame `df.iloc[-1]` raises and the except
branch returns HOLD.  Reason strings are abbreviated English stand-ins for
the formatted Chinese f-strings of the source. -/
def analyzeMomentumBody (prices : List ℚ) : Signal :=
  if prices.length = 0 then
    (SignalType.hold, 0, "momentum analysis error")
  else
    let m := momentumLast prices
    let c := priceChangeLast prices
    if nanGt m 5 && nanGt c 2 then
      (SignalType.strongBuy, 8/10, "strong upward momentum")
    else if nanGt m 2 && nanGt c 1 then
      (SignalType.buy, 6/10, "upward momentum")
    else if nanLt m (-5) && nanLt c (-2) then
      (SignalType.strongSell, 8/10, "strong downward momentum")
    else if nanLt m (-2) && nanLt c (-1) then
      (SignalType.sell, 6/10, "downward momentum")
    else
      (SignalType.hold, 0, "unclear momentum")

/-- The validate_data decorator (strategy.py lines 64-78) as written: it
inspects `args[0]` and applies the empty/short-data guard only when that
first positional argument is a pandas DataFrame; otherwise it calls the
wrapped function unchanged. -/
def validate_data_guard (arg0_is_dataframe : Bool) (df_len : ℕ) (inner : Signal) : Signal :=
  if arg0_is_dataframe then
    if df_len = 0 then (SignalType.hold, 0, "empty data")
    else if df_len < 20 then (SignalType.hold, 0, "insufficient data points")
    else inner
  else
    inner

/-- MomentumStrategy.analyze_momentum as actually callable: the decorated
bound method.  For a bound method `args[0]` is `self` (the strategy
object), never a DataFrame, so the decorator guard does not fire and the
body runs directly on the price series. -/
def analyze_momentum (prices : List ℚ) : Signal :=
  validate_data_guard false prices.length (analyzeMomentumBody prices)

/-! ## Position sizing and stop prices (risk_control.py) -/

/-- Target amount of PositionManager._calculate_fixed_amount_position:
the configured trade amount, replaced by 95% of available cash only when
available cash is strictly below the trade amount. -/
def fixedAmountTarget (trade_amount available_cash : ℚ) : ℚ :=
  if available_cash < trade_amount then available_cash * (95/100)
  else trade_amount

/-- Lot-rounded share volume of _calculate_fixed_amount_position. -/
def fixedAmountVolume (trade_amount price available_cash : ℚ) : ℤ :=
  pyInt (fixedAmountTarget trade_amount available_cash / price / 100) * 100

/-! ## Backtest engine (backtest.py, BacktestEngine) -/

/-- Engine configuration: TRADING_CONFIG entries used by the engine plus
the commission rate.  Field name suffix `_rat` stands for the `_ratio`
suffix of the source keys (position_ratio, stop_loss_ratio,
take_profit_ratio). -/
structure Config where
  position_rat : ℚ
  max_single_position : ℚ
  commission_rate : ℚ
  stop_loss_rat : ℚ
  take_profit_rat : ℚ
  trade_amount : ℚ
deriving DecidableEq, Repr

/-- Trade record (backtest.py dataclass Trade); stock_code omitted, the
engine is single-instrument. -/
structure Trade where
  timestamp : ℕ
  action : String
  price : ℚ
  volume : ℤ
  amount : ℚ
  commission : ℚ
  reason : String
deriving DecidableEq, Repr

/-- Position record (backtest.py dataclass Position); stock_code and the
realized_pnl field (never read by the engine) omitted. -/
structure Position where
  volume : ℤ
  avg_price : ℚ
  market_value : ℚ
  unrealized_pnl : ℚ
deriving DecidableEq, Repr

/-- Mutable backtest state: cash, the open position and the trade log. -/
structure EngineState where
  current_capital : ℚ
  current_position : Option Position
  trades : List Trade
deriving DecidableEq, Repr

/-- StopLossManager.calculate_stop_loss_price for trade_type = buy. -/
def calculate_stop_loss_price (cfg : Config) (entry_price : ℚ) : ℚ :=
  entry_price * (1 - cfg.stop_loss_rat)

/-- StopLossManager.calculate_take_profit_price for trade_type = buy. -/
def calculate_take_profit_price (cfg : Config) (entry_price : ℚ) : ℚ :=
  entry_price * (1 + cfg.take_profit_rat)

/-- Position fraction used by _execute_buy:
`min(position_ratio * signal_strength, max_single_position)`. -/
def buyPositionRat (cfg : Config) (strength : ℚ) : ℚ :=
  min (cfg.position_rat * strength) cfg.max_single_position

/-- Lot-rounded buy volume of _execute_buy:
`int(available_cash * position_ratio / price / 100) * 100`. -/
def buyVolume (cfg : Config) (available_cash price strength : ℚ) : ℤ :=
  pyInt (available_cash * buyPositionRat cfg strength / price / 100) * 100

/-- Total cost of the buy order in _execute_buy: amount plus commission. -/
def buyTotalCost (cfg : Config) (available_cash price strength : ℚ) : ℚ :=
  let actual_amount := (buyVolume cfg available_cash price strength : ℚ) * price
  actual_amount + actual_amount * cfg.commission_rate

/-- BacktestEngine._execute_buy (backtest.py lines 210-281). -/
def execute_buy (cfg : Config) (st : EngineState) (date : ℕ) (price strength : ℚ)
    (reason : String) : EngineState :=
  let available_cash := st.current_capital
  let volume := buyVolume cfg available_cash price strength
  if volume < 100 then st
  else
    let actual_amount := (volume : ℚ) * price
    let commission := actual_amount * cfg.commission_rate
    let total_cost := actual_amount + commission
    if total_cost > available_cash then st
    else
      { current_capital := st.current_capital - total_cost
        current_position := some { volume := volume, avg_price := price,
                                   market_value := actual_amount, unrealized_pnl := 0 }
        trades := st.trades ++
          [{ timestamp := date, action := "buy", price := price, volume := volume,
             amount := actual_amount, commission := commission, reason := reason }] }

/-- Sell fraction chosen by _execute_sell from the signal strength. -/
def sellRat (strength : ℚ) : ℚ :=
  if strength ≥ 8/10 then 1
  else if strength ≥ 5/10 then 1/2
  else 33/100

/-- Lot-rounded sell volume of _execute_sell:
`int(position.volume * sell_ratio / 100) * 100`. -/
def sellVolume (posVolume : ℤ) (strength : ℚ) : ℤ :=
  pyInt ((posVolume : ℚ) * sellRat strength / 100) * 100

/-- BacktestEngine._execute_sell (backtest.py lines 283-357). -/
def execute_sell (cfg : Config) (st : EngineState) (date : ℕ) (price strength : ℚ)
    (reason : String) : EngineState :=
  match st.current_position with
  | none => st
  | some pos =>
    let sell_volume := sellVolume pos.volume strength
    if sell_volume < 100 then st
    else
      let sell_amount := (sell_volume : ℚ) * price
      let commission := sell_amount * cfg.commission_rate
      let net_amount := sell_amount - commission
      let new_position : Option Position :=
        if sell_volume = pos.volume then none
        else some { pos with volume := pos.volume - sell_volume,
                             market_value := ((pos.volume - sell_volume : ℤ) : ℚ) * price }
      { current_capital := st.current_capital + net_amount
        current_position := new_position
        trades := st.trades ++
          [{ timestamp := date, action := "sell", price := price, volume := sell_volume,
             amount := sell_amount, commission := commission, reason := reason }] }

/-- BacktestEngine._check_stop_conditions (backtest.py lines 359-382). -/
def check_stop_conditions (cfg : Config) (st : EngineState) (current_price : ℚ) :
    Option String :=
  match st.current_position with
  | none => none
  | some pos =>
    if current_price ≤ calculate_stop_loss_price cfg pos.avg_price then some "stop_loss"
    else if current_price ≥ calculate_take_profit_price cfg pos.avg_price then some "take_profit"
    else none

/-- BacktestEngine._execute_trade (backtest.py lines 384-393): a triggered
stop action sells with signal strength 1.0 and the action as reason. -/
def execute_trade (cfg : Config) (st : EngineState) (date : ℕ) (price : ℚ)
    (action : String) : EngineState :=
  if action = "stop_loss" ∨ action = "take_profit" then
    execute_sell cfg st date price 1 action
  else st

/-- BacktestEngine._execute_trading_logic (backtest.py lines 194-208). -/
def execute_trading_logic (cfg : Config) (st : EngineState) (date : ℕ) (price : ℚ)
    (sig : Signal) : EngineState :=
  if (sig.1 = SignalType.buy ∨ sig.1 = SignalType.strongBuy) ∧ st.current_position = none then
    execute_buy cfg st date price sig.2.1 sig.2.2
  else if (sig.1 = SignalType.sell ∨ sig.1 = SignalType.strongSell) ∧ st.current_position ≠ none then
    execute_sell cfg st date price sig.2.1 sig.2.2
  else st

/-- Stop-check phase of one bar of run_backtest (backtest.py lines 131-135):
with an open position, a triggered stop condition is executed immediately. -/
def stopPhase (cfg : Config) (st : EngineState) (date : ℕ) (price : ℚ) : EngineState :=
  match st.current_position with
  | some _ =>
    match check_stop_conditions cfg st price with
    | some action => execute_trade cfg st date price action
    | none => st
  | none => st

/-- Signal phase of one bar of run_backtest (backtest.py lines 137-142):
if a signal was generated, run the trading logic on it. -/
def signalPhase (cfg : Config) (st : EngineState) (date : ℕ) (price : ℚ)
    (signal : Option Signal) : EngineState :=
  match signal with
  | some sig => execute_trading_logic cfg st date price sig
  | none => st

/-- One decisioned bar of run_backtest (backtest.py lines 131-145): the
stop check runs first, then signal evaluation on the updated state.  The
signal is the value `_generate_signal` produced for this bar (`none` when
it returned None). -/
def stepBar (cfg : Config) (st : EngineState) (date : ℕ) (price : ℚ)
    (signal : Option Signal) : EngineState :=
  signalPhase cfg (stopPhase cfg st date price) date price signal

/-- One bar of input to the simulator: index, close price, and the signal
generated for that bar. -/
structure Bar where
  date : ℕ
  price : ℚ
  signal : Option Signal
deriving DecidableEq, Repr

/-- A whole backtest run over the decisioned bars (backtest.py run_backtest
main loop).  Bars with fewer than 20 bars of history only record equity
and never touch cash, position or trades, so they are omitted. -/
def runBars (cfg : Config) (st : EngineState) (bars : List Bar) : EngineState :=
  bars.foldl (fun s b => stepBar cfg s b.date b.price b.signal) st

/-! ## Max drawdown (backtest.py _calculate_max_drawdown) -/

/-- Running maximum continuation: `runMaxAux m xs` is the tail of the
expanding maximum when `m` is the maximum seen so far. -/
def runMaxAux (m : ℚ) : List ℚ → List ℚ
  | [] => []
  | x :: xs => max m x :: runMaxAux (max m x) xs

/-- `equity_series.expanding().max()`: elementwise running maximum. -/
def expandingMax : List ℚ → List ℚ
  | [] => []
  | x :: xs => x :: runMaxAux x xs

/-- `drawdown = (equity - peak) / peak`, elementwise. -/
def drawdownList (equity : List ℚ) : List ℚ :=
  List.zipWith (fun e p => (e - p) / p) equity (expandingMax equity)

/-- Minimum of a list of rationals (0 on the empty list; the source
produces NaN there, and every property below is about nonempty curves). -/
def minList : List ℚ → ℚ
  | [] => 0
  | x :: xs => xs.foldl min x

/-- BacktestEngine._calculate_max_drawdown (backtest.py lines 492-496):
`abs(((equity - expanding_max) / expanding_max).min())`. -/
def max_drawdown (equity : List ℚ) : ℚ :=
  |minList (drawdownList equity)|

/-! ## Trade statistics (backtest.py _calculate_trade_statistics) -/

/-- Python float result of the profit-factor division, which can be
`float(inf)` when there are no losses. -/
inductive ProfitFactor
  | val (q : ℚ)
  | inf
deriving DecidableEq, Repr

/-- Aggregate trade statistics returned by _calculate_trade_statistics. -/
structure TradeStats where
  total_trades : ℕ
  winning_trades : ℕ
  losing_trades : ℕ
  win_rate : ℚ
  avg_win : ℚ
  avg_loss : ℚ
  profit_factor : ProfitFactor
deriving DecidableEq, Repr

/-- PnL of one buy/sell pair:
`(sell.price - buy.price) * min(buy.volume, sell.volume) - buy.commission - sell.commission`. -/
def pairPnl (b s : Trade) : ℚ :=
  (s.price - b.price) * ((min b.volume s.volume : ℤ) : ℚ) - b.commission - s.commission

/-- First sell of the list strictly later than the buy (the source takes
`matching_sells[0]` of the filtered sell list, which is kept in insertion
= chronological order by the engine). -/
def firstSellAfter (sell_trades : List Trade) (b : Trade) : Option Trade :=
  match sell_trades.filter (fun s => decide (b.timestamp < s.timestamp)) with
  | [] => none
  | s :: _ => some s

/-- Buy/sell pairing of _calculate_trade_statistics: every buy is paired
with the first subsequent sell, yielding the list of pair PnLs. -/
def tradePairs (trades : List Trade) : List ℚ :=
  let buy_trades := trades.filter (fun t => decide (t.action = "buy"))
  let sell_trades := trades.filter (fun t => decide (t.action = "sell"))
  buy_trades.filterMap (fun b => (firstSellAfter sell_trades b).map (pairPnl b))

/-- BacktestEngine._calculate_trade_statistics (backtest.py lines 508-568). -/
def calculate_trade_statistics (trades : List Trade) : TradeStats :=
  if trades = [] then
    { total_trades := 0, winning_trades := 0, losing_trades := 0,
      win_rate := 0, avg_win := 0, avg_loss := 0, profit_factor := ProfitFactor.val 0 }
  else
    let pairs := tradePairs trades
    if pairs = [] then
      { total_trades := trades.length, winning_trades := 0, losing_trades := 0,
        win_rate := 0, avg_win := 0, avg_loss := 0, profit_factor := ProfitFactor.val 0 }
    else
      let winning := pairs.filter (fun p => decide (0 < p))
      let losing := pairs.filter (fun p => decide (p < 0))
      let total := pairs.length
      let win_rate : ℚ := (winning.length : ℚ) / (total : ℚ)
      let avg_win : ℚ := if winning = [] then 0 else winning.sum / (winning.length : ℚ)
      let avg_loss : ℚ := if losing = [] then 0 else |losing.sum / (losing.length : ℚ)|
      let total_wins := winning.sum
      let total_losses := |losing.sum|
      let profit_factor : ProfitFactor :=
        if 0 < total_losses then ProfitFactor.val (total_wins / total_losses)
        else ProfitFactor.inf
      { total_trades := total, winning_trades := winning.length, losing_trades := losing.length,
        win_rate := win_rate, avg_win := avg_win, avg_loss := avg_loss,
        profit_factor := profit_factor }


/-- Price series for the C6 exhibit: 20 flat bars at 100 and one bar at
110, a one-day gain of 10% with 10-bar momentum 10. -/
def c6prices : List ℚ := [100, 100, 100, 100, 100, 100, 100, 100, 100, 100,
                          100, 100, 100, 100, 100, 100, 100, 100, 100, 100, 110]

/-- Price series for the C9 exhibit: 14 flat bars at 1 and one bar at 10,
fewer than the required 20 bars. -/
def c9prices : List ℚ := [1, 1, 1, 1, 1, 1, 1, 1, 1, 1, 1, 1, 1, 1, 10]

/-! ## Helper lemmas -/

/-- pyInt agrees with the floor on nonnegative arguments. -/
lemma pyInt_of_nonneg {q : ℚ} (h : 0 ≤ q) : pyInt q = ⌊q⌋ := by
  unfold pyInt
  rw [if_neg (not_lt.2 h)]

/-- pyInt is the identity on integers. -/
lemma pyInt_intCast (k : ℤ) : pyInt (k : ℚ) = k := by
  unfold pyInt
  split
  · rw [← Int.cast_neg, Int.floor_intCast, neg_neg]
  · exact Int.floor_intCast k

/-- The sell fraction is positive and at most 1. -/
lemma sellRat_pos_le_one (strength : ℚ) : 0 < sellRat strength ∧ sellRat strength ≤ 1 := by
  unfold sellRat
  split
  · norm_num
  · split <;> norm_num

/-- A signal of strength at least 0.8 sells the whole position when the
position volume is a positive whole number of lots. -/
lemma sellVolume_full {v k : ℤ} (hvol : v = 100 * k) {strength : ℚ}
    (h : 8/10 ≤ strength) : sellVolume v strength = v := by
  subst hvol
  unfold sellVolume
  rw [show sellRat strength = 1 by unfold sellRat; rw [if_pos (by exact h)]]
  have h1 : ((100 * k : ℤ) : ℚ) * 1 / 100 = (k : ℚ) := by
    push_cast
    ring
  rw [h1, pyInt_intCast, mul_comm]

/-- Cash stays nonnegative through _execute_buy. -/
lemma execute_buy_cash (cfg : Config) (st : EngineState) (date : ℕ)
    (price strength : ℚ) (reason : String) (h : 0 ≤ st.current_capital) :
    0 ≤ (execute_buy cfg st date price strength reason).current_capital := by
  simp only [execute_buy]
  split
  · exact h
  · split
    · exact h
    · rename_i hcost
      simp only [gt_iff_lt, not_lt] at hcost
      simpa using sub_nonneg.2 hcost

/-- Cash stays nonnegative through _execute_sell for a nonnegative price
and a commission rate at most 1. -/
lemma execute_sell_cash (cfg : Config) (st : EngineState) (date : ℕ)
    (price strength : ℚ) (reason : String) (h : 0 ≤ st.current_capital)
    (hp : 0 ≤ price) (hr : cfg.commission_rate ≤ 1) :
    0 ≤ (execute_sell cfg st date price strength reason).current_capital := by
  simp only [execute_sell]
  split
  · exact h
  · rename_i pos heq
    split
    · exact h
    · rename_i hguard
      simp only [not_lt] at hguard
      have hv : (0 : ℚ) ≤ ((sellVolume pos.volume strength : ℤ) : ℚ) := by
        exact_mod_cast le_trans (by norm_num) hguard
      have hsa : (0 : ℚ) ≤ ((sellVolume pos.volume strength : ℤ) : ℚ) * price :=
        mul_nonneg hv hp
      have hnet : (0 : ℚ) ≤ ((sellVolume pos.volume strength : ℤ) : ℚ) * price -
          ((sellVolume pos.volume strength : ℤ) : ℚ) * price * cfg.commission_rate := by
        nlinarith
      simpa using add_nonneg h hnet

/-- Cash stays nonnegative through _execute_trade. -/
lemma execute_trade_cash (cfg : Config) (st : EngineState) (date : ℕ)
    (price : ℚ) (action : String) (h : 0 ≤ st.current_capital)
    (hp : 0 ≤ price) (hr : cfg.commission_rate ≤ 1) :
    0 ≤ (execute_trade cfg st date price action).current_capital := by
  unfold execute_trade
  split
  · exact execute_sell_cash cfg st date price 1 action h hp hr
  · exact h

/-- Cash stays nonnegative through the stop phase of a bar. -/
lemma stopPhase_cash (cfg : Config) (st : EngineState) (date : ℕ) (price : ℚ)
    (h : 0 ≤ st.current_capital) (hp : 0 ≤ price) (hr : cfg.commission_rate ≤ 1) :
    0 ≤ (stopPhase cfg st date price).current_capital := by
  unfold stopPhase
  split
  · split
    · exact execute_trade_cash cfg st date price _ h hp hr
    · exact h
  · exact h

/-- Cash stays nonnegative through the signal phase of a bar. -/
lemma signalPhase_cash (cfg : Config) (st : EngineState) (date : ℕ) (price : ℚ)
    (signal : Option Signal) (h : 0 ≤ st.current_capital) (hp : 0 ≤ price)
    (hr : cfg.commission_rate ≤ 1) :
    0 ≤ (signalPhase cfg st date price signal).current_capital := by
  unfold signalPhase
  split
  · unfold execute_trading_logic
    split
    · exact execute_buy_cash cfg st date price _ _ h
    · split
      · exact execute_sell_cash cfg st date price _ _ h hp hr
      · exact h
  · exact h

/-- Cash stays nonnegative through a whole decisioned bar. -/
lemma stepBar_cash (cfg : Config) (st : EngineState) (date : ℕ) (price : ℚ)
    (signal : Option Signal) (h : 0 ≤ st.current_capital) (hp : 0 ≤ price)
    (hr : cfg.commission_rate ≤ 1) :
    0 ≤ (stepBar cfg st date price signal).current_capital := by
  unfold stepBar
  exact signalPhase_cash cfg _ date price signal (stopPhase_cash cfg st date price h hp hr) hp hr

/-! ## C10 -/

/-- C10: whenever a buy order is rejected (lot-rounded volume below one
lot, or total cost exceeding cash) or a sell order is rejected
(lot-rounded sell volume below one lot), the engine state — cash, open
position and trade log — is returned exactly unchanged. -/
theorem C10_rejection_leaves_state_unchanged (cfg : Config) (st : EngineState)
    (date : ℕ) (price strength : ℚ) (reason : String) :
    (buyVolume cfg st.current_capital price strength < 100 ∨
       buyTotalCost cfg st.current_capital price strength > st.current_capital →
       execute_buy cfg st date price strength reason = st) ∧
    (∀ pos, st.current_position = some pos →
       sellVolume pos.volume strength < 100 →
       execute_sell cfg st date price strength reason = st) := by
  constructor
  · intro hrej
    simp only [execute_buy]
    split
    · rfl
    · rename_i hvol
      rcases hrej with hv | hc
      · exact absurd hv hvol
      · rw [if_pos]
        simpa [buyTotalCost] using hc
  · intro pos hpos hsv
    simp only [execute_sell, hpos]
    rw [if_pos hsv]

/-- C10 witness: a concrete rejected buy (volume rounds to 0 lots) and a
concrete rejected sell (a weak signal on a 1-lot position rounds to 0)
both leave the state untouched. -/
theorem C10_witness :
    execute_buy ⟨1/2, 3/10, 3/10000, 1/20, 1/10, 10000⟩
        ⟨50, some ⟨100, 10, 1000, 0⟩, []⟩ 0 10 (3/10) "r" =
      ⟨50, some ⟨100, 10, 1000, 0⟩, []⟩ ∧
    execute_sell ⟨1/2, 3/10, 3/10000, 1/20, 1/10, 10000⟩
        ⟨50, some ⟨100, 10, 1000, 0⟩, []⟩ 0 10 (3/10) "r" =
      ⟨50, some ⟨100, 10, 1000, 0⟩, []⟩ := by
  refine ⟨(C10_rejection_leaves_state_unchanged _ _ 0 10 (3/10) "r").1 (Or.inl ?_),
          (C10_rejection_leaves_state_unchanged _ _ 0 10 (3/10) "r").2 ⟨100, 10, 1000, 0⟩ rfl ?_⟩
  · norm_num [buyVolume, buyPositionRat, pyInt]
  · norm_num [sellVolume, sellRat, pyInt]


/-! ## C2 -/

/-- C2: across a whole backtest run over bars with nonnegative prices and
a commission rate at most 1, cash never goes negative; moreover a buy
whose total cost (amount plus commission) exceeds available cash is
rejected outright, leaving the state unchanged, never clipped. -/
theorem C2_cash_nonnegative (cfg : Config) (st : EngineState) (bars : List Bar)
    (hc : 0 ≤ st.current_capital) (hp : ∀ b ∈ bars, 0 ≤ b.price)
    (hr : cfg.commission_rate ≤ 1) :
    0 ≤ (runBars cfg st bars).current_capital ∧
    (∀ date price strength reason,
       buyTotalCost cfg st.current_capital price strength > st.current_capital →
       execute_buy cfg st date price strength reason = st) := by
  constructor
  · induction bars generalizing st with
    | nil => exact hc
    | cons b bs ih =>
      have hb : 0 ≤ b.price := hp b (List.mem_cons_self b bs)
      have hstep := stepBar_cash cfg st b.date b.price b.signal hc hb hr
      exact ih _ hstep (fun x hx => hp x (List.mem_cons_of_mem b hx))
  · intro date price strength reason hcost
    simp only [execute_buy]
    split
    · rfl
    · rw [if_pos]
      simpa [buyTotalCost] using hcost

/-- C2 witness at a concrete run: one bar with a buy signal. -/
theorem C2_witness :
    0 ≤ (runBars ⟨1, 1, 1/2, 1/20, 1/10, 0⟩ ⟨100, none, []⟩
      [⟨0, 10, some (SignalType.buy, 1, "b")⟩]).current_capital :=
  (C2_cash_nonnegative ⟨1, 1, 1/2, 1/20, 1/10, 0⟩ ⟨100, none, []⟩
    [⟨0, 10, some (SignalType.buy, 1, "b")⟩] (by norm_num)
    (by intro b hb; rw [List.mem_singleton] at hb; subst hb; norm_num)
    (by norm_num)).1

/-! ## C3 -/

/-- C3 (code bug exhibit): two agreeing STRONG_BUY signals with combined
strength 0.8 (≥ 0.7) make the combiner return STRONG_SELL, because the
agreement branch tests only `tech_signal == SignalType.BUY`; the claim and
the docstring of the function require the strong variant of the agreed
direction, STRONG_BUY. -/
theorem C3_strongbuy_agreement_returns_strongsell :
    combineStrategySignals SignalType.strongBuy SignalType.strongBuy (8/10) =
      SignalType.strongSell := by
  simp only [combineStrategySignals]
  norm_num
  decide

/-! ## C6 -/

/-- C6 (code bug exhibit): on an accepted series (21 bars) with momentum
10 > 5 and percent price change 10% > 2%, the momentum analyzer returns
Hold with strength 0.0 instead of StrongBuy with 0.8: the code compares
the raw fractional return (0.1) with the literal 2, i.e. a 200% threshold,
while its docstring and display format treat the value as a percentage. -/
theorem C6_percent_thresholds_not_met :
    c6prices.length = 21 ∧
    momentumLast c6prices = some 10 ∧
    priceChangeLast c6prices = some (1/10) ∧
    analyze_momentum c6prices = (SignalType.hold, 0, "unclear momentum") := by
  refine ⟨by norm_num [c6prices], ?_, ?_, ?_⟩
  · norm_num [momentumLast, c6prices, List.getD]
  · norm_num [priceChangeLast, c6prices, List.getD]
  · norm_num [analyze_momentum, validate_data_guard, analyzeMomentumBody, momentumLast,
      priceChangeLast, nanGt, nanLt, c6prices, List.getD]

/-! ## C7 -/

/-- C7 counterexample: with trade amount 10000 and available cash 10000,
the fixed-amount target is 10000, which exceeds 95% of available cash
(9500) — the 95% cap of the claim does not hold. -/
theorem C7_cex_target_exceeds_cap :
    fixedAmountTarget 10000 10000 = 10000 ∧
    ¬ (fixedAmountTarget 10000 10000 ≤ 95/100 * 10000) := by
  norm_num [fixedAmountTarget]

/-- C7 (amended): the fixed-amount target equals the configured trade
amount whenever available cash covers it (and may then exceed 0.95 × cash);
only when cash is below the trade amount is it replaced by 95% of cash.
For nonnegative cash the target never exceeds available cash itself, and
the resulting share volume is a whole number of lots. -/
theorem C7_fixed_amount_target (trade_amount price available_cash : ℚ)
    (hc : 0 ≤ available_cash) :
    (available_cash < trade_amount →
       fixedAmountTarget trade_amount available_cash = available_cash * (95/100)) ∧
    (trade_amount ≤ available_cash →
       fixedAmountTarget trade_amount available_cash = trade_amount) ∧
    fixedAmountTarget trade_amount available_cash ≤ available_cash ∧
    fixedAmountVolume trade_amount price available_cash % 100 = 0 := by
  refine ⟨?_, ?_, ?_, ?_⟩
  · intro h
    simp only [fixedAmountTarget, if_pos h]
  · intro h
    simp only [fixedAmountTarget, if_neg (not_lt.2 h)]
  · simp only [fixedAmountTarget]
    split
    · linarith
    · rename_i h
      exact le_of_not_lt h
  · exact Int.mul_emod_left _ _

/-- C7 witness at trade amount 10000, price 10, cash 20000. -/
theorem C7_witness : fixedAmountTarget 10000 20000 ≤ 20000 :=
  (C7_fixed_amount_target 10000 10 20000 (by norm_num)).2.2.1

/-! ## C9 -/

/-- C9 (code bug exhibit): on a 15-bar series (fewer than 20) the
decorated momentum analyzer returns STRONG_BUY with strength 0.8 rather
than Hold with 0.0: validate_data inspects `args[0]`, which for a bound
method is `self` and never a DataFrame, so the minimum-history guard is
dead code.  Had the guard been applied to the DataFrame (third conjunct),
it would return the documented Hold result. -/
theorem C9_short_series_not_held :
    c9prices.length = 15 ∧
    analyze_momentum c9prices = (SignalType.strongBuy, 8/10, "strong upward momentum") ∧
    validate_data_guard true c9prices.length (analyzeMomentumBody c9prices) =
      (SignalType.hold, 0, "insufficient data points") := by
  refine ⟨by norm_num [c9prices], ?_, ?_⟩
  · norm_num [analyze_momentum, validate_data_guard, analyzeMomentumBody, momentumLast,
      priceChangeLast, nanGt, nanLt, c9prices, List.getD]
  · norm_num [validate_data_guard, c9prices]


/-! ## C1 -/

/-- C1 counterexample (closed): with a 1-lot position held at 10, a bar
price of 9 triggers the stop-loss (threshold 9.5) and the position is
liquidated — yet the buy signal of the same bar is still evaluated and
opens a new position, so the stop does not short-circuit signal
evaluation. -/
theorem C1_cex_no_short_circuit :
    ((stepBar ⟨1/2, 3/10, 3/10000, 1/20, 1/10, 10000⟩
      ⟨10000, some ⟨100, 10, 1000, 0⟩, []⟩ 5 9
      (some (SignalType.buy, 1, "sig"))).trades.map (fun t => (t.action, t.reason))) =
    [("sell", "stop_loss"), ("buy", "sig")] := by
  norm_num [stepBar, stopPhase, signalPhase, check_stop_conditions,
    calculate_stop_loss_price, calculate_take_profit_price, execute_trade,
    execute_trading_logic, execute_buy, execute_sell, buyVolume, buyPositionRat,
    sellVolume, sellRat, pyInt]

/-- C1 (amended): the stop check runs before signal evaluation; with an
open position of a positive whole number of lots, a triggered stop-loss or
take-profit liquidates the entire position at the bar price and records a
sell trade with reason stop_loss (checked first) or take_profit.  Signal
evaluation is NOT short-circuited: it proceeds on the post-exit state, so
a buy signal can reopen a position on the same bar. -/
theorem C1_stop_exit_full_liquidation (cfg : Config) (st : EngineState) (date : ℕ)
    (price : ℚ) (signal : Option Signal) (pos : Position) (k : ℤ)
    (hpos : st.current_position = some pos)
    (hvol : pos.volume = 100 * k) (hk : 0 < k)
    (htrig : price ≤ calculate_stop_loss_price cfg pos.avg_price ∨
             calculate_take_profit_price cfg pos.avg_price ≤ price) :
    stepBar cfg st date price signal =
      signalPhase cfg (stopPhase cfg st date price) date price signal ∧
    (stopPhase cfg st date price).current_position = none ∧
    (stopPhase cfg st date price).trades = st.trades ++
      [{ timestamp := date, action := "sell", price := price, volume := pos.volume,
         amount := (pos.volume : ℚ) * price,
         commission := (pos.volume : ℚ) * price * cfg.commission_rate,
         reason := if price ≤ calculate_stop_loss_price cfg pos.avg_price
                   then "stop_loss" else "take_profit" }] := by
  have hfull : sellVolume pos.volume 1 = pos.volume := sellVolume_full hvol (by norm_num)
  have hge : ¬ (sellVolume pos.volume 1 < 100) := by
    rw [hfull, hvol]
    omega
  have hstop : stopPhase cfg st date price =
      execute_sell cfg st date price 1
        (if price ≤ calculate_stop_loss_price cfg pos.avg_price
         then "stop_loss" else "take_profit") := by
    simp only [stopPhase, check_stop_conditions, hpos]
    by_cases h1 : price ≤ calculate_stop_loss_price cfg pos.avg_price
    · rw [if_pos h1, if_pos h1]
      simp [execute_trade]
    · have h2 : price ≥ calculate_take_profit_price cfg pos.avg_price :=
        htrig.resolve_left h1
      rw [if_neg h1, if_neg h1, if_pos h2]
      simp [execute_trade]
  refine ⟨rfl, ?_, ?_⟩
  · rw [hstop]
    simp only [execute_sell, hpos]
    rw [if_neg hge]
    simp only [if_pos hfull]
  · rw [hstop]
    simp only [execute_sell, hpos]
    rw [if_neg hge]
    simp only [hfull]

/-- C1 witness: the concrete stop-loss exit of the counterexample closes
the position entirely. -/
theorem C1_witness :
    (stopPhase ⟨1/2, 3/10, 3/10000, 1/20, 1/10, 10000⟩
      ⟨10000, some ⟨100, 10, 1000, 0⟩, []⟩ 5 9).current_position = none :=
  (C1_stop_exit_full_liquidation ⟨1/2, 3/10, 3/10000, 1/20, 1/10, 10000⟩
    ⟨10000, some ⟨100, 10, 1000, 0⟩, []⟩ 5 9 none ⟨100, 10, 1000, 0⟩ 1 rfl (by norm_num)
    (by norm_num)
    (Or.inl (by norm_num [calculate_stop_loss_price]))).2.1

/-! ## C4 -/

/-- C4 counterexample: a weak sell signal (strength 0.3) on a 300-share
position sells nothing — the code computes `int(300 * 0.33 / 100) * 100 = 0`
and rejects, while the claim (fraction one third, minimum one lot) would
require a 100-share sale. -/
theorem C4_cex_third_of_three_lots :
    execute_sell ⟨1/2, 3/10, 3/10000, 1/20, 1/10, 10000⟩
      ⟨1000, some ⟨300, 10, 3000, 0⟩, []⟩ 0 10 (3/10) "weak" =
    ⟨1000, some ⟨300, 10, 3000, 0⟩, []⟩ := by
  norm_num [execute_sell, sellVolume, sellRat, pyInt]

/-- C4 (amended): with a position open, the liquidated fraction is 100%
for strength ≥ 0.8, 50% for strength ≥ 0.5 and 33% (the literal 0.33, not
one third) otherwise; the share count is rounded down to a lot multiple,
never exceeds the held volume, and if it rounds below one lot the sell is
rejected and nothing is sold. -/
theorem C4_sell_fraction_ladder (cfg : Config) (st : EngineState) (date : ℕ)
    (price strength : ℚ) (reason : String) (pos : Position)
    (hpos : st.current_position = some pos) (hv : 0 ≤ pos.volume) :
    (sellVolume pos.volume strength < 100 →
       execute_sell cfg st date price strength reason = st) ∧
    (100 ≤ sellVolume pos.volume strength →
       (execute_sell cfg st date price strength reason).trades = st.trades ++
         [{ timestamp := date, action := "sell", price := price,
            volume := sellVolume pos.volume strength,
            amount := (sellVolume pos.volume strength : ℚ) * price,
            commission := (sellVolume pos.volume strength : ℚ) * price * cfg.commission_rate,
            reason := reason }]) ∧
    sellVolume pos.volume strength ≤ pos.volume := by
  obtain ⟨hr0, hr1⟩ := sellRat_pos_le_one strength
  refine ⟨?_, ?_, ?_⟩
  · intro h
    simp only [execute_sell, hpos]
    rw [if_pos h]
  · intro h
    simp only [execute_sell, hpos]
    rw [if_neg (not_lt.2 h)]
  · have hq : (0 : ℚ) ≤ (pos.volume : ℚ) * sellRat strength / 100 := by
      apply div_nonneg _ (by norm_num)
      exact mul_nonneg (by exact_mod_cast hv) hr0.le
    have hfl : ((⌊(pos.volume : ℚ) * sellRat strength / 100⌋ : ℤ) : ℚ) ≤
        (pos.volume : ℚ) * sellRat strength / 100 := Int.floor_le _
    have hle : ((sellVolume pos.volume strength : ℤ) : ℚ) ≤ (pos.volume : ℚ) := by
      unfold sellVolume
      rw [pyInt_of_nonneg hq]
      push_cast
      have h100 : ((⌊(pos.volume : ℚ) * sellRat strength / 100⌋ : ℤ) : ℚ) * 100 ≤
          (pos.volume : ℚ) * sellRat strength := by
        calc ((⌊(pos.volume : ℚ) * sellRat strength / 100⌋ : ℤ) : ℚ) * 100
            ≤ ((pos.volume : ℚ) * sellRat strength / 100) * 100 := by
              exact mul_le_mul_of_nonneg_right hfl (by norm_num)
          _ = (pos.volume : ℚ) * sellRat strength := by
              field_simp
      have hv2 : (0 : ℚ) ≤ (pos.volume : ℚ) := by exact_mod_cast hv
      have hvr : (pos.volume : ℚ) * sellRat strength ≤ (pos.volume : ℚ) := by
        nlinarith
      linarith
    exact_mod_cast hle

/-- C4 witness: a strength-1 signal on a 2-lot position sells both lots. -/
theorem C4_witness :
    (execute_sell ⟨1/2, 3/10, 3/10000, 1/20, 1/10, 10000⟩
      ⟨0, some ⟨200, 10, 2000, 0⟩, []⟩ 0 10 1 "s").trades = [] ++
      [{ timestamp := 0, action := "sell", price := 10,
         volume := sellVolume 200 1,
         amount := (sellVolume 200 1 : ℚ) * 10,
         commission := (sellVolume 200 1 : ℚ) * 10 * (3/10000),
         reason := "s" }] :=
  (C4_sell_fraction_ladder ⟨1/2, 3/10, 3/10000, 1/20, 1/10, 10000⟩
    ⟨0, some ⟨200, 10, 2000, 0⟩, []⟩ 0 10 1 "s" ⟨200, 10, 2000, 0⟩ rfl (by norm_num)).2.1
    (by norm_num [sellVolume, sellRat, pyInt])

/-! ## C8 -/

/-- Every entry of the drawdown tail lies in [-1, 0] when the running peak
starts positive and all equity values are positive. -/
lemma zipWith_runMax_bounds (xs : List ℚ) :
    ∀ (m : ℚ), 0 < m → (∀ x ∈ xs, 0 < x) →
    ∀ d ∈ List.zipWith (fun e p => (e - p) / p) xs (runMaxAux m xs), -1 ≤ d ∧ d ≤ 0 := by
  induction xs with
  | nil =>
    intro m _ _ d hd
    simp [runMaxAux] at hd
  | cons x xs ih =>
    intro m hm hpos d hd
    rw [runMaxAux] at hd
    simp only [List.zipWith] at hd
    rcases List.mem_cons.1 hd with h | h
    · have hp : 0 < max m x := lt_of_lt_of_le hm (le_max_left m x)
      have hxle : x ≤ max m x := le_max_right m x
      have hx : 0 < x := hpos x (List.mem_cons_self x xs)
      subst h
      constructor
      · rw [le_div_iff₀ hp]
        nlinarith
      · rw [div_nonpos_iff]
        right
        exact ⟨sub_nonpos.2 hxle, hp.le⟩
    · exact ih (max m x) (lt_of_lt_of_le hm (le_max_left m x))
        (fun y hy => hpos y (List.mem_cons_of_mem x hy)) d h

/-- Folding min over values in [-1, 0] from a start in [-1, 0] stays in
[-1, 0]. -/
lemma foldl_min_bounds (l : List ℚ) :
    ∀ (a : ℚ), -1 ≤ a → a ≤ 0 → (∀ d ∈ l, -1 ≤ d ∧ d ≤ 0) →
    -1 ≤ l.foldl min a ∧ l.foldl min a ≤ 0 := by
  induction l with
  | nil =>
    intro a h1 h2 _
    exact ⟨h1, h2⟩
  | cons x xs ih =>
    intro a h1 h2 hl
    have hx := hl x (List.mem_cons_self x xs)
    rw [List.foldl_cons]
    exact ih (min a x) (le_min h1 hx.1) (le_trans (min_le_left a x) h2)
      (fun d hd => hl d (List.mem_cons_of_mem x hd))

/-- C8 counterexample: the equity curve [100, -50] (a negative equity
value) yields max drawdown 3/2 > 1, so the bound does not hold for every
equity curve. -/
theorem C8_cex_negative_equity :
    ¬ (max_drawdown [100, -50] ≤ 1) := by
  have h : max_drawdown [100, -50] = 3/2 := by
    simp only [max_drawdown, drawdownList, expandingMax, runMaxAux, minList, List.zipWith]
    norm_num [abs_of_nonneg]
  rw [h]
  norm_num

/-- C8 (amended): for every nonempty equity curve with positive values,
the computed max drawdown lies in [0, 1]. -/
theorem C8_drawdown_bounds (equity : List ℚ) (hne : equity ≠ [])
    (hpos : ∀ x ∈ equity, 0 < x) :
    0 ≤ max_drawdown equity ∧ max_drawdown equity ≤ 1 := by
  obtain ⟨x, xs, rfl⟩ := List.exists_cons_of_ne_nil hne
  have hx : 0 < x := hpos x (List.mem_cons_self x xs)
  have hdd : drawdownList (x :: xs) =
      0 :: List.zipWith (fun e p => (e - p) / p) xs (runMaxAux x xs) := by
    simp only [drawdownList, expandingMax, List.zipWith]
    rw [sub_self, zero_div]
  have hb := zipWith_runMax_bounds xs x hx (fun y hy => hpos y (List.mem_cons_of_mem x hy))
  have hmin := foldl_min_bounds _ 0 (by norm_num) le_rfl hb
  unfold max_drawdown
  rw [hdd]
  unfold minList
  constructor
  · exact abs_nonneg _
  · rw [abs_of_nonpos hmin.2]
    linarith [hmin.1]

/-- C8 witness at the concrete curve [100, 50]. -/
theorem C8_witness : 0 ≤ max_drawdown [100, 50] ∧ max_drawdown [100, 50] ≤ 1 :=
  C8_drawdown_bounds [100, 50] (by simp)
    (by intro x hx; rcases List.mem_cons.1 hx with h | h
        · subst h; norm_num
        · rw [List.mem_singleton] at h; subst h; norm_num)


/-! ## C5 -/

/-- In a list sorted by timestamp, the head of a filtered sublist has the
least timestamp among all elements satisfying the predicate. -/
lemma filter_sorted_head_min (l : List Trade) (p : Trade → Bool)
    (hsort : l.Pairwise (fun a b => a.timestamp ≤ b.timestamp)) :
    ∀ s rest, l.filter p = s :: rest → ∀ x ∈ l, p x = true → s.timestamp ≤ x.timestamp := by
  induction l with
  | nil =>
    intro s rest h
    simp at h
  | cons a l ih =>
    intro s rest h x hx hpx
    rw [List.pairwise_cons] at hsort
    by_cases hpa : p a = true
    · rw [List.filter_cons, if_pos hpa] at h
      injection h with h1 h2
      subst h1
      rcases List.mem_cons.1 hx with rfl | hxl
      · exact le_refl _
      · exact hsort.1 x hxl
    · rw [List.filter_cons, if_neg hpa] at h
      rcases List.mem_cons.1 hx with rfl | hxl
      · exact absurd hpx hpa
      · exact ih hsort.2 s rest h x hxl hpx

/-- Specification of firstSellAfter on a chronologically sorted sell list:
it returns a sell strictly after the buy with the least such timestamp. -/
lemma firstSellAfter_spec (sells : List Trade)
    (hsort : sells.Pairwise (fun a b => a.timestamp ≤ b.timestamp))
    (b s : Trade) (h : firstSellAfter sells b = some s) :
    b.timestamp < s.timestamp ∧ s ∈ sells ∧
    ∀ x ∈ sells, b.timestamp < x.timestamp → s.timestamp ≤ x.timestamp := by
  unfold firstSellAfter at h
  cases hf : sells.filter (fun t => decide (b.timestamp < t.timestamp)) with
  | nil =>
    rw [hf] at h
    simp at h
  | cons hd tl =>
    rw [hf] at h
    simp only [Option.some.injEq] at h
    have hmem : hd ∈ sells.filter (fun t => decide (b.timestamp < t.timestamp)) := by
      rw [hf]
      exact List.mem_cons_self _ _
    rw [List.mem_filter] at hmem
    rw [← h]
    refine ⟨by simpa using hmem.2, hmem.1, ?_⟩
    intro x hx hbx
    exact filter_sorted_head_min sells _ hsort hd tl hf x hx (by simpa using hbx)

/-- A nonempty list of negative rationals has a negative sum. -/
lemma sum_neg_of_mem_neg (l : List ℚ) :
    l ≠ [] → (∀ x ∈ l, x < 0) → l.sum < 0 := by
  induction l with
  | nil =>
    intro h
    exact absurd rfl h
  | cons x xs ih =>
    intro _ hl
    rw [List.sum_cons]
    by_cases hxs : xs = []
    · subst hxs
      simpa using hl x (List.mem_cons_self _ _)
    · have h1 := ih hxs (fun y hy => hl y (List.mem_cons_of_mem x hy))
      have h2 := hl x (List.mem_cons_self _ _)
      linarith

/-- C5 counterexample: a log with a single buy and no sell has no losing
pairs, yet the profit factor is 0.0, not ∞. -/
theorem C5_cex_no_pairs :
    (tradePairs [⟨0, "buy", 10, 100, 1000, 0, "r"⟩]).filter (fun p => decide (p < 0)) = [] ∧
    (calculate_trade_statistics [⟨0, "buy", 10, 100, 1000, 0, "r"⟩]).profit_factor ≠
      ProfitFactor.inf := by
  constructor
  · norm_num [tradePairs, firstSellAfter, List.filter, List.filterMap]
  · norm_num [calculate_trade_statistics, tradePairs, firstSellAfter, List.filter,
      List.filterMap]
    decide

/-- C5 (amended): when the sell log is chronologically ordered (as the
engine produces it) and at least one buy/sell pair exists: each buy is
paired with the first sell strictly after it; the win rate is the fraction
of pairs with positive PnL; the profit factor is sum(wins)/|sum(losses)|
when a losing pair exists and ∞ when none does.  When no pair exists at
all, the statistics are zeroed and the profit factor is 0.0, not ∞. -/
theorem C5_trade_statistics (trades : List Trade)
    (hsort : (trades.filter (fun t => decide (t.action = "sell"))).Pairwise
               (fun a b => a.timestamp ≤ b.timestamp))
    (hpairs : tradePairs trades ≠ []) :
    (calculate_trade_statistics trades).win_rate =
        (((tradePairs trades).filter (fun p => decide (0 < p))).length : ℚ) /
          ((tradePairs trades).length : ℚ) ∧
    ((tradePairs trades).filter (fun p => decide (p < 0)) = [] →
        (calculate_trade_statistics trades).profit_factor = ProfitFactor.inf) ∧
    ((tradePairs trades).filter (fun p => decide (p < 0)) ≠ [] →
        (calculate_trade_statistics trades).profit_factor =
          ProfitFactor.val (((tradePairs trades).filter (fun p => decide (0 < p))).sum /
            |((tradePairs trades).filter (fun p => decide (p < 0))).sum|)) ∧
    (∀ b ∈ trades.filter (fun t => decide (t.action = "buy")), ∀ s,
        firstSellAfter (trades.filter (fun t => decide (t.action = "sell"))) b = some s →
        b.timestamp < s.timestamp ∧ s.action = "sell" ∧ s ∈ trades ∧
        ∀ x ∈ trades, x.action = "sell" → b.timestamp < x.timestamp →
          s.timestamp ≤ x.timestamp) := by
  have htne : trades ≠ [] := by
    intro h
    subst h
    exact hpairs rfl
  refine ⟨?_, ?_, ?_, ?_⟩
  · simp only [calculate_trade_statistics, if_neg htne, if_neg hpairs]
  · intro hlos
    simp only [calculate_trade_statistics, if_neg htne, if_neg hpairs, hlos]
    norm_num
  · intro hlos
    have hneg : ((tradePairs trades).filter (fun p => decide (p < 0))).sum < 0 := by
      apply sum_neg_of_mem_neg _ hlos
      intro x hx
      have := (List.mem_filter.1 hx).2
      simpa using this
    have habs : 0 < |((tradePairs trades).filter (fun p => decide (p < 0))).sum| :=
      abs_pos.2 (ne_of_lt hneg)
    simp only [calculate_trade_statistics, if_neg htne, if_neg hpairs, if_pos habs]
  · intro b hb s hs
    obtain ⟨h1, h2, h3⟩ := firstSellAfter_spec _ hsort b s hs
    have h2f := List.mem_filter.1 h2
    refine ⟨h1, by simpa using h2f.2, h2f.1, ?_⟩
    intro x hx hxa hbx
    exact h3 x (List.mem_filter.2 ⟨hx, by simpa using hxa⟩) hbx

/-- C5 witness at a concrete log: a buy at time 0 and a winning sell at
time 1. -/
theorem C5_witness :
    (calculate_trade_statistics
        [⟨0, "buy", 10, 100, 1000, 0, "r"⟩, ⟨1, "sell", 11, 100, 1100, 0, "q"⟩]).win_rate =
      (((tradePairs [⟨0, "buy", 10, 100, 1000, 0, "r"⟩, ⟨1, "sell", 11, 100, 1100, 0, "q"⟩]).filter
          (fun p => decide (0 < p))).length : ℚ) /
        ((tradePairs [⟨0, "buy", 10, 100, 1000, 0, "r"⟩, ⟨1, "sell", 11, 100, 1100, 0, "q"⟩]).length : ℚ) :=
  (C5_trade_statistics
    [⟨0, "buy", 10, 100, 1000, 0, "r"⟩, ⟨1, "sell", 11, 100, 1100, 0, "q"⟩]
    (by decide)
    (by norm_num [tradePairs, firstSellAfter, List.filter, List.filterMap])).1

end AutoTrade
